import Mathlib

/-!
Shallow embedding of the medical-bill OCR amount-extraction pipeline.

Source files embedded here:
  * classification service (`classifyAmounts`, `classifyAmount`,
    `validateClassification`),
  * normalization service (`normalizeAmounts`, `normalizeToken`,
    `validateNormalizedAmounts`),
  * OCR/extraction service (`extractNumericTokens`, `detectCurrency`),
  * controller pipeline (`extractAndProcess`).

JavaScript numbers are modelled as rationals (all values the pipeline
produces are short decimal literals), strings as `List Char`.  The JS
regular expressions are embedded as terms of a small regex AST `RE`
evaluated by a fuel-based backtracking matcher `runRE` whose outcome
order mirrors the JS engine (leftmost position first, alternation
left-to-right, greedy quantifiers).
-/

set_option maxRecDepth 1000000

namespace MedOCR

/-- JS `\s` restricted to the characters that can occur in this pipeline:
space, tab, newline, carriage return, vertical tab, form feed, NBSP. -/
def jsSpace (c : Char) : Bool :=
  c == ' ' || c == '\t' || c == '\n' || c == '\r' ||
  c == Char.ofNat 11 || c == Char.ofNat 12 || c == Char.ofNat 160

/-- JS `\w`: ASCII letters, digits and underscore. -/
def isWordChar (c : Char) : Bool :=
  c.isAlpha || c.isDigit || c == '_'

def isWordO : Option Char → Bool
  | none => false
  | some c => isWordChar c

/-- JS `\b`: a word boundary lies between two positions exactly when one
side is a word character and the other is not (or is the string edge). -/
def isBoundary (prev nxt : Option Char) : Bool :=
  isWordO prev != isWordO nxt

/-- Character comparison, case-insensitively when the regex has the `i` flag. -/
def eqCi (ci : Bool) (a b : Char) : Bool :=
  if ci then a.toLower == b.toLower else a == b

/-- Numeric value of a digit string (assumes decimal digits). -/
def digitsVal (l : List Char) : Nat :=
  l.foldl (fun acc c => 10 * acc + (c.toNat - 48)) 0

/-- Value of a fraction digit string: "50" ↦ 1/2. -/
def fracVal (l : List Char) : ℚ :=
  l.foldr (fun c acc => (((c.toNat - 48 : ℕ) : ℚ) + acc) / 10) 0

/-- JS `parseFloat`, restricted to the inputs this code ever feeds it
(strings of decimal digits and dots): parse the longest numeric prefix,
`none` (JS `NaN`) when no digit is seen before the scan stops. -/
def parseFloatQ (s : List Char) : Option ℚ :=
  let intPart := s.takeWhile Char.isDigit
  let rest := s.dropWhile Char.isDigit
  match rest with
  | '.' :: r2 =>
      let fracPart := r2.takeWhile Char.isDigit
      if intPart.isEmpty && fracPart.isEmpty then none
      else some ((digitsVal intPart : ℚ) + fracVal fracPart)
  | _ => if intPart.isEmpty then none else some ((digitsVal intPart : ℚ))

/-- `str.replace(/,/g, "")`. -/
def stripCommas (s : List Char) : List Char :=
  s.filter (fun c => c != ',')

/-- Regex AST covering exactly the constructs used by the source patterns. -/
inductive RE where
  | eps : RE
  | lit : Char → RE
  | cls : (Char → Bool) → RE
  | wb : RE
  | seq : RE → RE → RE
  | alt : RE → RE → RE
  | opt : RE → RE
  | star : RE → RE
  | grp : RE → RE

/-- Matcher state: previous character (for `\b`), remaining input,
current value of capture group 1. -/
structure MState where
  prev : Option Char
  rest : List Char
  cap : Option (List Char)

def joinAll {α : Type} : List (List α) → List α
  | [] => []
  | l :: ls => l ++ joinAll ls

def bindL {α : Type} (l : List α) (f : α → List α) : List α :=
  joinAll (l.map f)

/-- Backtracking matcher.  Returns every way the regex can match a prefix
of `st.rest`, in the JS engine's preference order: alternation tries the
left branch first, `?`/`*`/`+` are greedy.  Structurally recursive on
`fuel` so that the kernel can evaluate it. -/
def runRE (ci : Bool) : Nat → RE → MState → List MState
  | 0, _, _ => []
  | _ + 1, .eps, st => [st]
  | _ + 1, .lit c, st =>
      match st.rest with
      | [] => []
      | a :: r => if eqCi ci a c then [⟨some a, r, st.cap⟩] else []
  | _ + 1, .cls p, st =>
      match st.rest with
      | [] => []
      | a :: r => if p a then [⟨some a, r, st.cap⟩] else []
  | _ + 1, .wb, st =>
      if isBoundary st.prev st.rest.head? then [st] else []
  | fuel + 1, .seq r1 r2, st =>
      bindL (runRE ci fuel r1 st) (fun st2 => runRE ci fuel r2 st2)
  | fuel + 1, .alt r1 r2, st =>
      runRE ci fuel r1 st ++ runRE ci fuel r2 st
  | fuel + 1, .opt r, st =>
      runRE ci fuel r st ++ [st]
  | fuel + 1, .star r, st =>
      bindL (runRE ci fuel r st) (fun st2 => runRE ci fuel (.star r) st2) ++ [st]
  | fuel + 1, .grp r, st =>
      (runRE ci fuel r st).map
        (fun st2 => ⟨st2.prev, st2.rest, some (st.rest.take (st.rest.length - st2.rest.length))⟩)

def reSize : RE → Nat
  | .eps => 1
  | .lit _ => 1
  | .cls _ => 1
  | .wb => 1
  | .seq r1 r2 => 1 + reSize r1 + reSize r2
  | .alt r1 r2 => 1 + reSize r1 + reSize r2
  | .opt r => 1 + reSize r
  | .star r => 1 + reSize r
  | .grp r => 1 + reSize r

/-- Fuel sufficient for any match attempt of `re` on `s` (every star body
in the source patterns consumes at least one character). -/
def matchFuel (re : RE) (s : List Char) : Nat :=
  (reSize re + 2) * (s.length + 2)

/-- Result of one regex match: `match[0]` and capture group `match[1]`. -/
structure JsMatch where
  matched : List Char
  cap : Option (List Char)
deriving DecidableEq, Repr

structure Found where
  m : JsMatch
  lastChar : Option Char
  rest : List Char

/-- `str.match(re)` search: try the match at each successive position,
return the first success (JS leftmost-match rule). -/
def findFrom (ci : Bool) (re : RE) : Nat → Option Char → List Char → Option Found
  | 0, _, _ => none
  | fuel + 1, prev, s =>
      match (runRE ci (matchFuel re s) re ⟨prev, s, none⟩).head? with
      | some st2 =>
          let consumed := s.take (s.length - st2.rest.length)
          some ⟨⟨consumed, st2.cap⟩,
                (match consumed.getLast? with
                 | some c => some c
                 | none => prev),
                st2.rest⟩
      | none =>
          match s with
          | [] => none
          | c :: r => findFrom ci re fuel (some c) r

def firstMatch (ci : Bool) (re : RE) (s : List Char) : Option JsMatch :=
  (findFrom ci re (s.length + 1) none s).map (fun fd => fd.m)

/-- `re.test(str)`. -/
def testRE (ci : Bool) (re : RE) (s : List Char) : Bool :=
  (findFrom ci re (s.length + 1) none s).isSome

/-- `str.matchAll(re)` with the `g` flag: repeatedly find the next match,
resuming after the previous one (advancing one character on an empty match). -/
def allGo (ci : Bool) (re : RE) : Nat → Option Char → List Char → List JsMatch
  | 0, _, _ => []
  | fuel + 1, prev, s =>
      match findFrom ci re (s.length + 1) prev s with
      | none => []
      | some fd =>
          if fd.m.matched.isEmpty then
            match fd.rest with
            | [] => [fd.m]
            | c :: r => fd.m :: allGo ci re fuel (some c) r
          else fd.m :: allGo ci re fuel fd.lastChar fd.rest

def allMatches (ci : Bool) (re : RE) (s : List Char) : List JsMatch :=
  allGo ci re (s.length + 1) none s

/-- Literal string regex. -/
def rlit (s : String) : RE :=
  (s.data.map RE.lit).foldr RE.seq RE.eps

/-- Ordered alternation `(?:a|b|c)`. -/
def altList : List RE → RE
  | [] => RE.eps
  | [r] => r
  | r :: rs => RE.alt r (altList rs)

def digitC : RE := RE.cls Char.isDigit

/-- `r{0,n}`, greedy. -/
def optRep (r : RE) : Nat → RE
  | 0 => RE.eps
  | n + 1 => RE.alt (RE.seq r (optRep r n)) RE.eps

/-- `\s*`. -/
def sSt : RE := RE.star (RE.cls jsSpace)

/-- `[:\s]*`. -/
def colSp : RE := RE.star (RE.cls (fun c => c == ':' || jsSpace c))

/-- `\d+`. -/
def dPlus : RE := RE.seq digitC (RE.star digitC)

/-- `str.trim()`. -/
def trimL (s : List Char) : List Char :=
  ((s.dropWhile jsSpace).reverse.dropWhile jsSpace).reverse

/-- `str.toLowerCase()` (ASCII, which is all the pipeline's text uses). -/
def toLowerL (s : List Char) : List Char :=
  s.map Char.toLower

mutual

/-- `str.split(/\n+/)`: accumulate the current segment until a newline run. -/
def splitNlGo (cur : List Char) : List Char → List (List Char)
  | [] => [cur.reverse]
  | c :: rest =>
      if c == '\n' then cur.reverse :: splitNlSkip rest
      else splitNlGo (c :: cur) rest

/-- Skip the remainder of a newline run, then resume the next segment. -/
def splitNlSkip : List Char → List (List Char)
  | [] => [[]]
  | c :: rest =>
      if c == '\n' then splitNlSkip rest
      else splitNlGo [c] rest

end

def splitNl (s : List Char) : List (List Char) :=
  splitNlGo [] s

/-- `haystack.includes(needle)`. -/
def containsSeq (hay needle : List Char) : Bool :=
  match hay, needle with
  | _, [] => true
  | [], _ => false
  | a :: t, n => n.isPrefixOf (a :: t) || containsSeq t n

def natDigitsL (n : Nat) : List Char :=
  (Nat.repr n).data

/-- JS `Number.prototype.toString` for the non-negative values this
pipeline produces (denominator 1, 10 or 100; normalized amounts are always
rounded to two decimals).  Values outside that domain, which the pipeline
never produces, get a marker rendering. -/
def qToStrNN (q : ℚ) : List Char :=
  if q.den = 1 then natDigitsL q.num.toNat
  else if (q * 10).den = 1 then
    natDigitsL ((q * 10).num.toNat / 10) ++ '.' :: natDigitsL ((q * 10).num.toNat % 10)
  else if (q * 100).den = 1 then
    let n := (q * 100).num.toNat
    natDigitsL (n / 100) ++ '.' ::
      (if n % 100 < 10 then '0' :: natDigitsL (n % 100) else natDigitsL (n % 100))
  else natDigitsL q.num.toNat ++ '#' :: natDigitsL q.den

def qToStr (q : ℚ) : List Char :=
  if q < 0 then '-' :: qToStrNN (-q) else qToStrNN q

/-- `parseFloat(x.toFixed(2))` and `Math.round(x * 100) / 100`: round to
two decimals, ties away from zero for the non-negative values seen here.
Uses the executable `Rat.floor` so that the kernel can evaluate it. -/
def round2 (q : ℚ) : ℚ :=
  (((q * 100 + 1 / 2).floor : ℤ) : ℚ) / 100

/-! ## Classification service -/

structure ClassifiedAmount where
  type : List Char
  value : ℚ
  source : List Char
  confidence : ℚ
deriving DecidableEq, Repr

/-- One entry of the classifier's rule table. -/
structure CatRule where
  type : List Char
  patterns : List RE
  confidence : ℚ

/-- `(?:rs\.?|inr|₹)` (patterns are matched case-insensitively). -/
def curRe : RE :=
  altList [RE.seq (rlit "rs") (RE.opt (RE.lit '.')), rlit "inr", RE.lit '₹']

/-- `[:\s]*(?:rs\.?|inr|₹)?\s*(\d+)` — shared tail of every classifier pattern. -/
def tailNum : RE :=
  RE.seq colSp (RE.seq (RE.opt curRe) (RE.seq sSt (RE.grp dPlus)))

def sOpt : RE := RE.opt (RE.lit 's')

/-- The classifier's fixed ordered rule table (classification service). -/
def classifierTable : List CatRule :=
  [ ⟨"total_bill".data,
      [ RE.seq (rlit "total") (RE.seq sSt (RE.seq (RE.opt (altList
          [rlit "bill", rlit "amount", RE.seq (rlit "charge") sOpt, rlit "cost"])) tailNum)),
        RE.seq (RE.opt (altList [rlit "grand", rlit "net"])) (RE.seq sSt (RE.seq (rlit "total") tailNum)),
        RE.seq (rlit "bill") (RE.seq sSt (RE.seq (rlit "amount") tailNum)),
        RE.seq (rlit "amount") (RE.seq sSt (RE.seq (rlit "payable") tailNum)) ],
      9 / 10 ⟩,
    ⟨"paid".data,
      [ RE.seq (RE.opt (RE.seq (rlit "amount") sSt)) (RE.seq (rlit "paid") tailNum),
        RE.seq (rlit "payment") tailNum,
        RE.seq (rlit "received") tailNum ],
      9 / 10 ⟩,
    ⟨"due".data,
      [ RE.seq (RE.opt (RE.seq (rlit "balance") sSt)) (RE.seq (rlit "due") tailNum),
        RE.seq (RE.opt (RE.seq (rlit "amount") sSt)) (RE.seq (rlit "outstanding") tailNum),
        RE.seq (rlit "balance") tailNum,
        RE.seq (rlit "pending") tailNum ],
      9 / 10 ⟩,
    ⟨"discount".data,
      [ RE.seq (rlit "discount") tailNum,
        RE.seq (rlit "concession") tailNum,
        RE.seq (rlit "rebate") tailNum ],
      85 / 100 ⟩,
    ⟨"tax".data,
      [ RE.seq (altList [rlit "gst", rlit "vat", rlit "tax"]) tailNum,
        RE.seq (rlit "service") (RE.seq sSt (RE.seq (rlit "tax") tailNum)) ],
      85 / 100 ⟩,
    ⟨"consultation_fee".data,
      [ RE.seq (rlit "consultation") (RE.seq sSt (RE.seq (altList
          [rlit "fee", RE.seq (rlit "charge") sOpt]) tailNum)),
        RE.seq (rlit "doctor") (RE.seq sSt (RE.seq (altList
          [rlit "fee", RE.seq (rlit "charge") sOpt]) tailNum)) ],
      8 / 10 ⟩,
    ⟨"medicine_cost".data,
      [ RE.seq (rlit "medicine") (RE.seq sOpt (RE.seq sSt (RE.seq (RE.opt (altList
          [rlit "cost", RE.seq (rlit "charge") sOpt])) tailNum))),
        RE.seq (rlit "pharmacy") tailNum,
        RE.seq (rlit "drug") (RE.seq sOpt tailNum) ],
      8 / 10 ⟩,
    ⟨"lab_test_cost".data,
      [ RE.seq (rlit "lab") (RE.seq sSt (RE.seq (altList
          [RE.seq (rlit "test") sOpt, RE.seq (rlit "charge") sOpt]) tailNum)),
        RE.seq (rlit "investigation") (RE.seq sOpt tailNum),
        RE.seq (rlit "diagnostic") (RE.seq sOpt tailNum) ],
      8 / 10 ⟩,
    ⟨"room_charges".data,
      [ RE.seq (rlit "room") (RE.seq sSt (RE.seq (altList
          [RE.seq (rlit "charge") sOpt, rlit "rent"]) tailNum)),
        RE.seq (rlit "bed") (RE.seq sSt (RE.seq (rlit "charge") (RE.seq sOpt tailNum))),
        RE.seq (rlit "accommodation") tailNum ],
      8 / 10 ⟩,
    ⟨"subtotal".data,
      [ RE.seq (rlit "sub") (RE.seq sSt (RE.seq (rlit "total") tailNum)),
        RE.seq (rlit "sub") (RE.seq (RE.star (RE.cls (fun c => c == '-' || jsSpace c)))
          (RE.seq (rlit "total") tailNum)) ],
      75 / 100 ⟩ ]

/-- The first raw-text line whose text contains the amount's decimal
string, trimmed; empty when no line contains it. -/
def findSourceLine (amount : ℚ) (lines : List (List Char)) : List Char :=
  match lines.find? (fun line => containsSeq line (qToStr amount)) with
  | some line => trimL line
  | none => []

def quoteL (s : List Char) : List Char :=
  Char.ofNat 39 :: (s ++ [Char.ofNat 39])

def mkSourceText (s : List Char) : List Char :=
  "text: ".data ++ quoteL s

def noContextSource : List Char :=
  "text: (context not found)".data

/-- `sourceLine.match(pattern) || lowerText.match(pattern)`. -/
def matchSL (p : RE) (sourceLine lowerText : List Char) : Option JsMatch :=
  match firstMatch true p sourceLine with
  | some m => some m
  | none => firstMatch true p lowerText

/-- `match && match[1] && parseFloat(match[1].replace(/,/g, "")) === amount`. -/
def capOk (amount : ℚ) (m : JsMatch) : Bool :=
  match m.cap with
  | some c => !c.isEmpty && (parseFloatQ (stripCommas c) == some amount)
  | none => false

/-- Inner pattern loop of `classifyAmount`: a pattern whose captured value
equals the amount replaces the best match only when its category
confidence strictly exceeds the current best. -/
def scanPats (amount : ℚ) (sl lt : List Char) (rule : CatRule) :
    List RE → Option ClassifiedAmount × ℚ → Option ClassifiedAmount × ℚ
  | [], acc => acc
  | p :: ps, (best, hi) =>
      scanPats amount sl lt rule ps
        (match matchSL p sl lt with
         | some m =>
             if capOk amount m && decide (hi < rule.confidence) then
               (some ⟨rule.type, amount,
                      mkSourceText (if sl.isEmpty then m.matched else sl),
                      rule.confidence⟩, rule.confidence)
             else (best, hi)
         | none => (best, hi))

/-- Outer category loop of `classifyAmount`. -/
def scanRules (amount : ℚ) (sl lt : List Char) :
    List CatRule → Option ClassifiedAmount × ℚ → Option ClassifiedAmount × ℚ
  | [], acc => acc
  | rule :: rules, acc =>
      scanRules amount sl lt rules (scanPats amount sl lt rule rule.patterns acc)

/-- `classifyAmount` from the classification service. -/
def classifyAmount (amount : ℚ) (lowerText : List Char) (lines : List (List Char)) :
    ClassifiedAmount :=
  let sourceLine := findSourceLine amount lines
  match (scanRules amount sourceLine lowerText classifierTable (none, 0)).1 with
  | some best => best
  | none =>
      ⟨"other".data, amount,
       if sourceLine.isEmpty then noContextSource else mkSourceText sourceLine,
       1 / 2⟩

structure ClassifyResult where
  amounts : List ClassifiedAmount
  confidence : ℚ
deriving DecidableEq, Repr

/-- `classifyAmounts` from the classification service. -/
def classifyAmounts (rawText : List Char) (normalizedAmounts : List ℚ) : ClassifyResult :=
  let text := toLowerL rawText
  let lines := splitNl rawText
  let classifiedAmounts := normalizedAmounts.map (fun amount => classifyAmount amount text lines)
  let totalConfidence := classifiedAmounts.foldl
    (fun s item => s + (if item.confidence = 0 then 1 / 2 else item.confidence)) 0
  let avgConfidence :=
    if 0 < classifiedAmounts.length then totalConfidence / (classifiedAmounts.length : ℚ)
    else 1 / 2
  ⟨classifiedAmounts, round2 avgConfidence⟩

structure ClassificationCheck where
  valid : Bool
  warnings : List (List Char)
deriving DecidableEq, Repr

def sumMismatchMsg (t p d : ClassifiedAmount) : List Char :=
  "Total (".data ++ qToStr t.value ++ ") doesn".data ++ [Char.ofNat 39] ++
    "t match Paid (".data ++ qToStr p.value ++ ") + Due (".data ++ qToStr d.value ++ ")".data

def dueGtTotalMsg : List Char :=
  "Due amount is greater than total - possible classification error".data

def paidGtTotalMsg : List Char :=
  "Paid amount is greater than total - possible classification error".data

/-- `validateClassification` from the classification service. -/
def validateClassification (classifiedAmounts : List ClassifiedAmount) : ClassificationCheck :=
  let total := classifiedAmounts.find? (fun a => a.type == "total_bill".data)
  let paid := classifiedAmounts.find? (fun a => a.type == "paid".data)
  let due := classifiedAmounts.find? (fun a => a.type == "due".data)
  let _subtotal := classifiedAmounts.find? (fun a => a.type == "subtotal".data)
  let w1 :=
    match total, paid, due with
    | some t, some p, some d =>
        if 1 < |t.value - (p.value + d.value)| then [sumMismatchMsg t p d] else []
    | _, _, _ => []
  let w2 :=
    match total, due with
    | some t, some d => if t.value < d.value then [dueGtTotalMsg] else []
    | _, _ => []
  let w3 :=
    match total, paid with
    | some t, some p => if t.value < p.value then [paidGtTotalMsg] else []
    | _, _ => []
  let warnings := w1 ++ w2 ++ w3
  ⟨warnings.isEmpty, warnings⟩

/-! ## Normalization service -/

/-- The OCR character-confusion substitution table, in source order. -/
def charReplacements : List (Char × Char) :=
  [('l', '1'), ('I', '1'), ('O', '0'), ('o', '0'), ('S', '5'),
   ('s', '5'), ('B', '8'), ('Z', '2'), ('T', '7'), ('G', '6')]

/-- Global replace of `(\d)w(?=\d)|(?<=\d)w(?=\d)|^w(?=\d)|(?<=\d)w$` by
`$1` + the digit `d`: the four regex alternatives, tried in order at each
position, compiled to a left-to-right scan that threads the previous
ORIGINAL character (lookbehind inspects the input, not the output). -/
def fixRunF (w d : Char) : Nat → Option Char → List Char → List Char
  | 0, _, s => s
  | _ + 1, _, [] => []
  | fuel + 1, prev, a :: rest =>
      match rest with
      | [] =>
          if a == w && (match prev with | some p => p.isDigit | none => false) then [d]
          else [a]
      | b :: rest2 =>
          if a.isDigit && b == w &&
              (match rest2.head? with | some c => c.isDigit | none => false) then
            a :: d :: fixRunF w d fuel (some b) rest2
          else if a == w && b.isDigit &&
              (match prev with | some p => p.isDigit | none => true) then
            d :: fixRunF w d fuel (some a) (b :: rest2)
          else a :: fixRunF w d fuel (some a) (b :: rest2)

def fixRun (w d : Char) (s : List Char) : List Char :=
  fixRunF w d (s.length + 1) none s

/-- `normalizeToken` from the normalization service. -/
def normalizeToken (token : List Char) : Option ℚ :=
  let n1 := token.filter (fun c => !(c == '₹' || c == '$' || c == '€' || c == '£'))
  let n2 := charReplacements.foldl (fun s wd => fixRun wd.1 wd.2 s) n1
  let n3 := n2.filter (fun c => c.isDigit || c == '.' || c == ',')
  let n4 := n3.filter (fun c => c != ',')
  match parseFloatQ n4 with
  | none => none
  | some parsed => if parsed < 0 then none else some (round2 parsed)

/-- The token loop of `normalizeAmounts`: accumulates
(normalized amounts, successful normalizations, total attempts).
`totalAttempts` is incremented BEFORE the percentage skip. -/
def normLoop : List (List Char) → List ℚ × Nat × Nat → List ℚ × Nat × Nat
  | [], acc => acc
  | token :: ts, (amts, succ, att) =>
      if token.contains '%' then normLoop ts (amts, succ, att + 1)
      else
        match normalizeToken token with
        | some v => normLoop ts (amts ++ [v], succ + 1, att + 1)
        | none => normLoop ts (amts, succ, att + 1)

structure NormalizeResult where
  normalized_amounts : List ℚ
  normalization_confidence : ℚ
deriving DecidableEq, Repr

/-- `normalizeAmounts` from the normalization service. -/
def normalizeAmounts (rawTokens : List (List Char)) : NormalizeResult :=
  let res := normLoop rawTokens ([], 0, 0)
  let confidence := if 0 < res.2.2 then ((res.2.1 : ℚ)) / ((res.2.2 : ℚ)) else 0
  ⟨res.1, round2 confidence⟩

structure AmountsCheck where
  valid : Bool
  reason : Option (List Char)
deriving DecidableEq, Repr

/-- `validateNormalizedAmounts` from the normalization service. -/
def validateNormalizedAmounts (amounts : List ℚ) : AmountsCheck :=
  if amounts.length = 0 then
    ⟨false, some "No valid amounts found after normalization".data⟩
  else
    let maxReasonableAmount : ℚ := 10000000
    if amounts.any (fun amt => decide (maxReasonableAmount < amt)) then
      ⟨false, some "Detected unreasonably large amounts - possible OCR error".data⟩
    else
      let zeroCount := (amounts.filter (fun amt => decide (amt = 0))).length
      if (amounts.length : ℚ) / 2 < (zeroCount : ℚ) then
        ⟨false, some "Too many zero values detected".data⟩
      else ⟨true, none⟩

/-! ## OCR/extraction service -/

/-- `\d{1,6}(?:\.\d{1,2})?`. -/
def num16 : RE :=
  RE.seq (RE.seq digitC (optRep digitC 5))
    (RE.opt (RE.seq (RE.lit '.') (RE.seq digitC (optRep digitC 1))))

/-- `(?:Rs\.?|INR|₹|Rs)`. -/
def curRe2 : RE :=
  altList [RE.seq (rlit "Rs") (RE.opt (RE.lit '.')), rlit "INR", RE.lit '₹', rlit "Rs"]

/-- First context pattern: money keyword, then optional currency marker,
then a captured 1–6 digit number with optional decimals. -/
def ctxKwRe : RE :=
  RE.seq (altList [rlit "total", rlit "paid", rlit "due", rlit "balance", rlit "amount",
    rlit "mrp", rlit "discount", rlit "tax", rlit "subtotal", rlit "net", rlit "gross"])
    (RE.seq colSp (RE.seq (RE.opt curRe2) (RE.seq sSt (RE.grp num16))))

/-- Second context pattern: `(?:Rs\.?|INR|₹|Rs)\s*(\d{1,6}(?:\.\d{1,2})?)`. -/
def ctxCurRe : RE :=
  RE.seq curRe2 (RE.seq sSt (RE.grp num16))

/-- Third context pattern: `\b(\d{1,6}\.\d{2})\b`. -/
def ctxDecRe : RE :=
  RE.seq RE.wb (RE.seq (RE.grp (RE.seq (RE.seq digitC (optRep digitC 5))
    (RE.seq (RE.lit '.') (RE.seq digitC digitC)))) RE.wb)

/-- Fallback pattern: `\b(\d{2,6}(?:\.\d{1,2})?)\b`. -/
def fallbackNumRe : RE :=
  RE.seq RE.wb (RE.seq (RE.grp (RE.seq (RE.seq digitC (RE.seq digitC (optRep digitC 4)))
    (RE.opt (RE.seq (RE.lit '.') (RE.seq digitC (optRep digitC 1)))))) RE.wb)

/-- The cleaning class `[₹$€£Rs\s,]` with the `i` flag. -/
def cleanDrop (c : Char) : Bool :=
  c == '₹' || c == '$' || c == '€' || c == '£' ||
  c.toLower == 'r' || c.toLower == 's' || jsSpace c || c == ','

/-- Context-pass loop body of `extractNumericTokens`: clean each captured
value, then push it when unseen, parseable, and within `[0.01, 999999]`.
The `seen` set always holds exactly the pushed tokens, so membership in
the token list models it. -/
def phase1Push (tokens : List (List Char)) : List JsMatch → List (List Char)
  | [] => tokens
  | m :: ms =>
      let value := match m.cap with
        | some c => if c.isEmpty then m.matched else c
        | none => m.matched
      let cleaned := trimL (value.filter (fun c => !cleanDrop c))
      if !cleaned.isEmpty && !tokens.contains cleaned then
        match parseFloatQ cleaned with
        | some num =>
            if 1 / 100 ≤ num && num ≤ 999999 then phase1Push (tokens ++ [cleaned]) ms
            else phase1Push tokens ms
        | none => phase1Push tokens ms
      else phase1Push tokens ms

/-- Fallback loop body of `extractNumericTokens`: push the trimmed capture
when unseen, parseable, within `[10, 999999]`, and at most 8 characters. -/
def fbPush (tokens : List (List Char)) : List JsMatch → List (List Char)
  | [] => tokens
  | m :: ms =>
      let cleaned := trimL (m.cap.getD [])
      if !cleaned.isEmpty && !tokens.contains cleaned then
        match parseFloatQ cleaned with
        | some num =>
            if 10 ≤ num && num ≤ 999999 && cleaned.length ≤ 8 then
              fbPush (tokens ++ [cleaned]) ms
            else fbPush tokens ms
        | none => fbPush tokens ms
      else fbPush tokens ms

/-- Tokens produced by the three context patterns (passes 1–3), in order. -/
def contextTokens (text : List Char) : List (List Char) :=
  phase1Push (phase1Push (phase1Push [] (allMatches true ctxKwRe text))
    (allMatches true ctxCurRe text)) (allMatches false ctxDecRe text)

/-- `extractNumericTokens` from the OCR service: context passes, then the
bare-number fallback only when fewer than 3 tokens were found. -/
def extractNumericTokens (text : List Char) : List (List Char) :=
  let tokens := contextTokens text
  if tokens.length < 3 then fbPush tokens (allMatches false fallbackNumRe text)
  else tokens

/-- `\b(?:INR|Rs\.?|₹|Rupees?|Indian Rupees?)\b`. -/
def inrRe : RE :=
  RE.seq RE.wb (RE.seq (altList [rlit "INR", RE.seq (rlit "Rs") (RE.opt (RE.lit '.')),
    RE.lit '₹', RE.seq (rlit "Rupee") sOpt, RE.seq (rlit "Indian Rupee") sOpt]) RE.wb)

/-- `\b(?:USD|\$|Dollars?|US Dollars?)\b`. -/
def usdRe : RE :=
  RE.seq RE.wb (RE.seq (altList [rlit "USD", RE.lit '$',
    RE.seq (rlit "Dollar") sOpt, RE.seq (rlit "US Dollar") sOpt]) RE.wb)

/-- `\b(?:EUR|€|Euros?)\b`. -/
def eurRe : RE :=
  RE.seq RE.wb (RE.seq (altList [rlit "EUR", RE.lit '€', RE.seq (rlit "Euro") sOpt]) RE.wb)

/-- `\b(?:GBP|£|Pounds?)\b`. -/
def gbpRe : RE :=
  RE.seq RE.wb (RE.seq (altList [rlit "GBP", RE.lit '£', RE.seq (rlit "Pound") sOpt]) RE.wb)

/-- `detectCurrency` from the OCR service: the currency patterns are
tested in insertion order INR, USD, EUR, GBP; default INR. -/
def detectCurrency (text : List Char) : List Char :=
  if testRE true inrRe text then "INR".data
  else if testRE true usdRe text then "USD".data
  else if testRE true eurRe text then "EUR".data
  else if testRE true gbpRe text then "GBP".data
  else "INR".data

/-! ## Controller pipeline -/

structure FinalAmount where
  type : List Char
  value : ℚ
  source : List Char
deriving DecidableEq, Repr

inductive PipelineResult where
  | ok (currency : List Char) (amounts : List FinalAmount)
  | noAmountsFound (reason : List Char)
  | lowConfidence (reason : List Char) (confidence : ℚ)
  | invalidAmounts (reason : List Char)
deriving DecidableEq, Repr

def allowedTypes : List (List Char) :=
  ["total_bill".data, "paid".data, "due".data]

/-- The `extractAndProcess` controller after OCR/text extraction, with
the classification validator as a parameter.  The validator's result is
only logged in the source, so it is bound and discarded here. -/
def pipelineCoreWith (validator : List ClassifiedAmount → ClassificationCheck)
    (rawText : List Char) (ocrConfidence minOcrConfidence : ℚ) : PipelineResult :=
  let numericTokens := extractNumericTokens rawText
  let currencyHint := detectCurrency rawText
  if numericTokens.length = 0 then
    .noAmountsFound "No numeric values detected in the document".data
  else if ocrConfidence < minOcrConfidence then
    .lowConfidence "Document quality too poor or text too noisy".data (round2 ocrConfidence)
  else
    let normalizationResult := normalizeAmounts numericTokens
    let validationResult := validateNormalizedAmounts normalizationResult.normalized_amounts
    if !validationResult.valid then .invalidAmounts (validationResult.reason.getD [])
    else
      let classificationResult := classifyAmounts rawText normalizationResult.normalized_amounts
      let _classificationValidation := validator classificationResult.amounts
      let filteredAmounts :=
        (classificationResult.amounts.filter (fun a => decide (a.type ∈ allowedTypes))).map
          (fun a => FinalAmount.mk a.type a.value a.source)
      .ok currencyHint filteredAmounts

/-- `extractAndProcess` (text input has OCR confidence 1.0). -/
def extractAndProcess (rawText : List Char) (ocrConfidence minOcrConfidence : ℚ) :
    PipelineResult :=
  pipelineCoreWith validateClassification rawText ocrConfidence minOcrConfidence

/-! ## Specification-level comparison definitions -/

/-- The spec's digit-adjacency guard: the character sits between digits,
or at a string boundary next to a digit. -/
def adjacentToDigit (prev nxt : Option Char) : Bool :=
  match prev, nxt with
  | some p, some n => p.isDigit && n.isDigit
  | none, some n => n.isDigit
  | some p, none => p.isDigit
  | none, none => false

/-- Positional reading of the substitution guard: replace each occurrence
of `w` by `d` exactly when its original neighbours satisfy
`adjacentToDigit`.  Used to characterise `fixRun`. -/
def specRepair (w d : Char) (prev : Option Char) : List Char → List Char
  | [] => []
  | a :: rest =>
      (if a == w && adjacentToDigit prev rest.head? then d else a) ::
        specRepair w d (some a) rest

/-- Number of raw tokens that are not percentages and normalize successfully. -/
def countNormSucc (tokens : List (List Char)) : Nat :=
  (tokens.filter (fun t => !t.contains '%' && (normalizeToken t).isSome)).length

/-- The amounts `normalizeAmounts` produces, in order. -/
def normOutputs (tokens : List (List Char)) : List ℚ :=
  tokens.filterMap (fun t => if t.contains '%' then none else normalizeToken t)

/-- Modelled from the spec: the confidence formula the spec asserts —
successfully normalized tokens over the tokens attempted AFTER the
percentage-skip filter.  (The source instead counts every raw token in
the denominator; this definition exists only to compare the two.) -/
def specConfidenceAfterSkip (tokens : List (List Char)) : ℚ :=
  let attempted := tokens.filter (fun t => !t.contains '%')
  let succ := attempted.filter (fun t => (normalizeToken t).isSome)
  if attempted.length = 0 then 0 else (succ.length : ℚ) / (attempted.length : ℚ)

/-- Does any classifier pattern match with a captured value equal to the
amount (the condition under which `classifyAmount` can leave `other`)? -/
def anyPatHit (amount : ℚ) (sl lt : List Char) : Bool :=
  classifierTable.any (fun rule => rule.patterns.any (fun p =>
    match matchSL p sl lt with
    | some m => capOk amount m
    | none => false))

/-- A pattern matches (on the source line or the lowercased text) and its
captured numeric group, after comma-stripping and float-parsing, equals
the amount. -/
def patCapturesAmount (amount : ℚ) (sl lt : List Char) (p : RE) : Prop :=
  ∃ m, matchSL p sl lt = some m ∧
    ∃ c, m.cap = some c ∧ c ≠ [] ∧ parseFloatQ (stripCommas c) = some amount

/-! ## Helper lemmas -/

theorem ratFloor_eq (q : ℚ) : q.floor = ⌊q⌋ :=
  (Rat.floor_def' q).trans Rat.floor_def.symm

theorem round2_nonneg {q : ℚ} (h0 : 0 ≤ q) : 0 ≤ round2 q := by
  unfold round2
  rw [ratFloor_eq]
  have : (0 : ℤ) ≤ ⌊q * 100 + 1 / 2⌋ := Int.floor_nonneg.mpr (by linarith)
  have : (0 : ℚ) ≤ (⌊q * 100 + 1 / 2⌋ : ℚ) := by exact_mod_cast this
  linarith

theorem round2_le_one {q : ℚ} (h1 : q ≤ 1) : round2 q ≤ 1 := by
  unfold round2
  rw [ratFloor_eq]
  have hlt : ⌊q * 100 + 1 / 2⌋ < 101 := by
    rw [Int.floor_lt]
    push_cast
    linarith
  have : (⌊q * 100 + 1 / 2⌋ : ℚ) ≤ 100 := by exact_mod_cast Int.lt_add_one_iff.mp hlt
  linarith

theorem capOk_iff {amount : ℚ} {m : JsMatch} :
    capOk amount m = true ↔
      ∃ c, m.cap = some c ∧ c ≠ [] ∧ parseFloatQ (stripCommas c) = some amount := by
  cases hc : m.cap with
  | none => simp [capOk, hc]
  | some c =>
      simp [capOk, hc, List.isEmpty_iff, Bool.and_eq_true, beq_iff_eq]

theorem scanPats_some {amount : ℚ} {sl lt : List Char} {rule : CatRule} :
    ∀ {pats : List RE} {acc : Option ClassifiedAmount × ℚ} {b : ClassifiedAmount},
    (scanPats amount sl lt rule pats acc).1 = some b →
    acc.1 = some b ∨
      (b.type = rule.type ∧ b.value = amount ∧ b.confidence = rule.confidence ∧
        ∃ p ∈ pats, ∃ m, matchSL p sl lt = some m ∧ capOk amount m = true) := by
  intro pats
  induction pats with
  | nil => intro acc b h; exact Or.inl h
  | cons p ps ih =>
      rintro ⟨best, hi⟩ b h
      rw [scanPats] at h
      cases hm : matchSL p sl lt with
      | none =>
          simp only [hm] at h
          rcases ih h with h1 | h2
          · exact Or.inl h1
          · exact Or.inr ⟨h2.1, h2.2.1, h2.2.2.1, by
              obtain ⟨q, hq, rest⟩ := h2.2.2.2
              exact ⟨q, List.mem_cons_of_mem _ hq, rest⟩⟩
      | some m =>
          simp only [hm] at h
          by_cases hc : (capOk amount m && decide (hi < rule.confidence)) = true
          · rw [if_pos hc] at h
            rcases ih h with h1 | h2
            · cases Option.some.inj h1
              refine Or.inr ⟨rfl, rfl, rfl, p, List.mem_cons_self _ _, m, hm, ?_⟩
              exact (Bool.and_eq_true _ _ |>.mp hc).1
            · exact Or.inr ⟨h2.1, h2.2.1, h2.2.2.1, by
                obtain ⟨q, hq, rest⟩ := h2.2.2.2
                exact ⟨q, List.mem_cons_of_mem _ hq, rest⟩⟩
          · rw [if_neg hc] at h
            rcases ih h with h1 | h2
            · exact Or.inl h1
            · exact Or.inr ⟨h2.1, h2.2.1, h2.2.2.1, by
                obtain ⟨q, hq, rest⟩ := h2.2.2.2
                exact ⟨q, List.mem_cons_of_mem _ hq, rest⟩⟩

theorem scanRules_some {amount : ℚ} {sl lt : List Char} :
    ∀ {rules : List CatRule} {acc : Option ClassifiedAmount × ℚ} {b : ClassifiedAmount},
    (scanRules amount sl lt rules acc).1 = some b →
    acc.1 = some b ∨
      ∃ rule ∈ rules, b.type = rule.type ∧ b.value = amount ∧
        b.confidence = rule.confidence ∧
        ∃ p ∈ rule.patterns, ∃ m, matchSL p sl lt = some m ∧ capOk amount m = true := by
  intro rules
  induction rules with
  | nil => intro acc b h; exact Or.inl h
  | cons r rs ih =>
      intro acc b h
      rw [scanRules] at h
      rcases ih h with h1 | h2
      · rcases scanPats_some h1 with h3 | h4
        · exact Or.inl h3
        · exact Or.inr ⟨r, List.mem_cons_self _ _, h4⟩
      · obtain ⟨rule, hmem, rest⟩ := h2
        exact Or.inr ⟨rule, List.mem_cons_of_mem _ hmem, rest⟩

theorem scanPats_skip {amount : ℚ} {sl lt : List Char} {rule : CatRule} :
    ∀ {pats : List RE} {acc : Option ClassifiedAmount × ℚ},
    (∀ p ∈ pats,
      (match matchSL p sl lt with
       | some m => capOk amount m
       | none => false) = false) →
    scanPats amount sl lt rule pats acc = acc := by
  intro pats
  induction pats with
  | nil => intro acc _; rw [scanPats]
  | cons p ps ih =>
      rintro ⟨best, hi⟩ h
      rw [scanPats]
      cases hm : matchSL p sl lt with
      | none =>
          simp only [hm]
          exact ih fun q hq => h q (List.mem_cons_of_mem _ hq)
      | some m =>
          simp only [hm]
          have hcap : capOk amount m = false := by
            have := h p (List.mem_cons_self _ _)
            rwa [hm] at this
          rw [if_neg (by simp [hcap])]
          exact ih fun q hq => h q (List.mem_cons_of_mem _ hq)

theorem scanRules_skip {amount : ℚ} {sl lt : List Char} :
    ∀ {rules : List CatRule} {acc : Option ClassifiedAmount × ℚ},
    (∀ rule ∈ rules, ∀ p ∈ rule.patterns,
      (match matchSL p sl lt with
       | some m => capOk amount m
       | none => false) = false) →
    scanRules amount sl lt rules acc = acc := by
  intro rules
  induction rules with
  | nil => intro acc _; rw [scanRules]
  | cons r rs ih =>
      intro acc h
      rw [scanRules, scanPats_skip (h r (List.mem_cons_self _ _))]
      exact ih fun rule hr => h rule (List.mem_cons_of_mem _ hr)

theorem normLoop_spec :
    ∀ (ts : List (List Char)) (amts : List ℚ) (succ att : Nat),
    normLoop ts (amts, succ, att) =
      (amts ++ normOutputs ts, succ + countNormSucc ts, att + ts.length) := by
  intro ts
  induction ts with
  | nil => intro amts succ att; simp [normLoop, normOutputs, countNormSucc]
  | cons t ts ih =>
      intro amts succ att
      rw [normLoop]
      by_cases hp : t.contains '%'
      · have hp2 : '%' ∈ t := by simpa using hp
        have h1 : normOutputs (t :: ts) = normOutputs ts := by
          simp [normOutputs, hp2]
        have h2 : countNormSucc (t :: ts) = countNormSucc ts := by
          simp [countNormSucc, List.filter_cons, hp2]
        rw [if_pos hp, ih, h1, h2]
        simp [Prod.ext_iff, List.append_assoc]
        try omega
      · have hp2 : '%' ∉ t := by simpa using hp
        rw [if_neg hp]
        cases hn : normalizeToken t with
        | none =>
            have h1 : normOutputs (t :: ts) = normOutputs ts := by
              simp [normOutputs, hp2, hn]
            have h2 : countNormSucc (t :: ts) = countNormSucc ts := by
              simp [countNormSucc, List.filter_cons, hp2, hn]
            simp only [ih, h1, h2]
            simp [Prod.ext_iff, List.append_assoc]
            try omega
        | some v =>
            have h1 : normOutputs (t :: ts) = v :: normOutputs ts := by
              simp [normOutputs, hp2, hn]
            have h2 : countNormSucc (t :: ts) = countNormSucc ts + 1 := by
              simp [countNormSucc, List.filter_cons, hp2, hn]
            simp only [ih, h1, h2]
            simp [Prod.ext_iff, List.append_assoc]
            try omega

theorem normalizeAmounts_eq (tokens : List (List Char)) :
    normalizeAmounts tokens =
      ⟨normOutputs tokens,
       round2 (if tokens.length = 0 then 0
               else (countNormSucc tokens : ℚ) / (tokens.length : ℚ))⟩ := by
  unfold normalizeAmounts
  rw [normLoop_spec]
  simp only [List.nil_append, Nat.zero_add]
  congr 1
  rcases Nat.eq_zero_or_pos tokens.length with h0 | hpos
  · simp [h0]
  · rw [if_pos hpos, if_neg (Nat.pos_iff_ne_zero.mp hpos)]

theorem countNormSucc_le (tokens : List (List Char)) :
    countNormSucc tokens ≤ tokens.length :=
  List.length_filter_le _ tokens

theorem adjacentToDigit_none (prev : Option Char) :
    adjacentToDigit prev none =
      (match prev with | some p => p.isDigit | none => false) := by
  cases prev <;> rfl

theorem adjacentToDigit_some (prev : Option Char) (c : Char) :
    adjacentToDigit prev (some c) =
      ((match prev with | some p => p.isDigit | none => true) && c.isDigit) := by
  cases prev <;> simp [adjacentToDigit]

theorem fixRunF_eq_spec {w d : Char} (hw : w.isDigit = false) :
    ∀ (fuel : Nat) (l : List Char) (prev : Option Char), l.length < fuel →
    fixRunF w d fuel prev l = specRepair w d prev l := by
  intro fuel
  induction fuel with
  | zero => intro l prev h; omega
  | succ fuel ih =>
      intro l prev hlen
      match l with
      | [] => rfl
      | [a] =>
          simp only [fixRunF, specRepair, List.head?_nil]
          cases prev with
          | none => simp [adjacentToDigit]
          | some p =>
              by_cases h : (a == w && p.isDigit) = true <;>
                simp [adjacentToDigit, h]
      | a :: b :: rest2 =>
          have hlen2 : rest2.length < fuel := by
            simp only [List.length_cons] at hlen
            omega
          have hlen1 : (b :: rest2).length < fuel := by
            simp only [List.length_cons] at hlen ⊢
            omega
          simp only [fixRunF]
          by_cases hc1 : ((a.isDigit && b == w) &&
              (match rest2.head? with | some c => c.isDigit | none => false)) = true
          · rw [if_pos (by simpa using hc1)]
            simp only [Bool.and_eq_true, beq_iff_eq] at hc1
            obtain ⟨⟨had, hbw⟩, hhd⟩ := hc1
            have haw : (a == w) = false := by
              cases hab : a == w
              · rfl
              · exfalso
                rw [beq_iff_eq] at hab
                rw [hab, hw] at had
                exact Bool.false_ne_true had
            rw [specRepair, specRepair]
            rw [if_neg (by simp [haw])]
            have hb : adjacentToDigit (some a) rest2.head? = true := by
              cases hh : rest2.head? with
              | none => rw [hh] at hhd; exact absurd hhd Bool.false_ne_true
              | some c =>
                  rw [hh] at hhd
                  have hcd : c.isDigit = true := hhd
                  show (a.isDigit && c.isDigit) = true
                  rw [had, hcd]
                  rfl
            rw [if_pos (by simp [hbw, hb])]
            rw [ih rest2 (some b) hlen2, hbw]
          · rw [if_neg (by simpa using hc1)]
            by_cases hc2 : ((a == w && b.isDigit) &&
                (match prev with | some p => p.isDigit | none => true)) = true
            · rw [if_pos (by simpa using hc2)]
              simp only [Bool.and_eq_true, beq_iff_eq] at hc2
              obtain ⟨⟨haw, hbd⟩, hpv⟩ := hc2
              rw [specRepair]
              have hadj : adjacentToDigit prev (some b) = true := by
                rw [adjacentToDigit_some]
                simp [hbd, hpv]
              rw [if_pos (by simp [haw, hadj])]
              rw [ih (b :: rest2) (some a) hlen1, haw]
            · rw [if_neg (by simpa using hc2)]
              rw [specRepair]
              rw [ih (b :: rest2) (some a) hlen1]
              congr 1
              have hfalse : (a == w && adjacentToDigit prev (some b)) = false := by
                cases prev with
                | none =>
                    cases hab : a == w <;> cases hbd : b.isDigit <;>
                      simp_all [adjacentToDigit]
                | some p =>
                    cases hab : a == w <;> cases hbd : b.isDigit <;>
                      cases hpd : p.isDigit <;> simp_all [adjacentToDigit]
              rw [if_neg (by simp [hfalse])]

theorem fixRun_eq_spec {w d : Char} (hw : w.isDigit = false) (s : List Char) :
    fixRun w d s = specRepair w d none s :=
  fixRunF_eq_spec hw (s.length + 1) s none (Nat.lt_succ_self _)

theorem phase1Push_mem :
    ∀ {ms : List JsMatch} {tokens : List (List Char)} {tok : List Char},
    tok ∈ phase1Push tokens ms →
    tok ∈ tokens ∨ ∃ q, parseFloatQ tok = some q ∧ 1 / 100 ≤ q ∧ q ≤ 999999 := by
  intro ms
  induction ms with
  | nil => intro tokens tok h; exact Or.inl (by simpa [phase1Push] using h)
  | cons m ms ih =>
      intro tokens tok h
      rw [phase1Push] at h
      set cleaned := trimL ((match m.cap with
        | some c => if c.isEmpty then m.matched else c
        | none => m.matched).filter (fun c => !cleanDrop c)) with hcl
      by_cases h1 : (!cleaned.isEmpty && !tokens.contains cleaned) = true
      · rw [if_pos h1] at h
        cases hp : parseFloatQ cleaned with
        | none =>
            simp only [hp] at h
            exact ih h
        | some num =>
            simp only [hp] at h
            by_cases h2 : ((1 : ℚ) / 100 ≤ num && num ≤ 999999) = true
            · rw [if_pos h2] at h
              rcases ih h with h3 | h4
              · rcases List.mem_append.mp h3 with h5 | h6
                · exact Or.inl h5
                · simp only [List.mem_singleton] at h6
                  subst h6
                  simp only [Bool.and_eq_true, decide_eq_true_eq] at h2
                  exact Or.inr ⟨num, hp, h2.1, h2.2⟩
              · exact Or.inr h4
            · rw [if_neg h2] at h
              exact ih h
      · rw [if_neg h1] at h
        exact ih h

theorem fbPush_decomp :
    ∀ (ms : List JsMatch) (tokens : List (List Char)),
    ∃ extra, fbPush tokens ms = tokens ++ extra ∧
      ∀ tok ∈ extra,
        (∃ m ∈ ms, tok = trimL (m.cap.getD [])) ∧
        ∃ q, parseFloatQ tok = some q ∧ 10 ≤ q ∧ q ≤ 999999 ∧ tok.length ≤ 8 := by
  intro ms
  induction ms with
  | nil => intro tokens; exact ⟨[], by simp [fbPush], by simp⟩
  | cons m ms ih =>
      intro tokens
      rw [fbPush]
      by_cases h1 : (!(trimL (m.cap.getD [])).isEmpty &&
          !tokens.contains (trimL (m.cap.getD []))) = true
      · rw [if_pos h1]
        cases hp : parseFloatQ (trimL (m.cap.getD [])) with
        | none =>
            simp only []
            obtain ⟨extra, he, hprop⟩ := ih tokens
            exact ⟨extra, he, fun tok ht =>
              ⟨⟨(hprop tok ht).1.choose,
                List.mem_cons_of_mem _ (hprop tok ht).1.choose_spec.1,
                (hprop tok ht).1.choose_spec.2⟩, (hprop tok ht).2⟩⟩
        | some num =>
            simp only []
            by_cases h2 : ((10 : ℚ) ≤ num && (num ≤ 999999 &&
                (trimL (m.cap.getD [])).length ≤ 8)) = true
            · rw [if_pos (by simpa [Bool.and_assoc] using h2)]
              obtain ⟨extra, he, hprop⟩ := ih (tokens ++ [trimL (m.cap.getD [])])
              refine ⟨trimL (m.cap.getD []) :: extra, by simpa using he, ?_⟩
              intro tok ht
              rcases List.mem_cons.mp ht with h3 | h4
              · subst h3
                simp only [Bool.and_eq_true, decide_eq_true_eq] at h2
                exact ⟨⟨m, List.mem_cons_self _ _, rfl⟩,
                  num, hp, h2.1, h2.2.1, h2.2.2⟩
              · obtain ⟨⟨m2, hm2, he2⟩, hq⟩ := hprop tok h4
                exact ⟨⟨m2, List.mem_cons_of_mem _ hm2, he2⟩, hq⟩
            · rw [if_neg (by simpa [Bool.and_assoc] using h2)]
              obtain ⟨extra, he, hprop⟩ := ih tokens
              exact ⟨extra, he, fun tok ht =>
                ⟨⟨(hprop tok ht).1.choose,
                  List.mem_cons_of_mem _ (hprop tok ht).1.choose_spec.1,
                  (hprop tok ht).1.choose_spec.2⟩, (hprop tok ht).2⟩⟩
      · rw [if_neg h1]
        obtain ⟨extra, he, hprop⟩ := ih tokens
        exact ⟨extra, he, fun tok ht =>
          ⟨⟨(hprop tok ht).1.choose,
            List.mem_cons_of_mem _ (hprop tok ht).1.choose_spec.1,
            (hprop tok ht).1.choose_spec.2⟩, (hprop tok ht).2⟩⟩

theorem contextTokens_mem {text tok : List Char} (h : tok ∈ contextTokens text) :
    ∃ q, parseFloatQ tok = some q ∧ 1 / 100 ≤ q ∧ q ≤ 999999 := by
  unfold contextTokens at h
  rcases phase1Push_mem h with h1 | h1
  · rcases phase1Push_mem h1 with h2 | h2
    · rcases phase1Push_mem h2 with h3 | h3
      · simp at h3
      · exact h3
    · exact h2
  · exact h1

/-! ## Claim theorems -/

/-- C1: for every normalized amount and every category rule in the
classifier's table, the amount is assigned that category only when some
pattern of the rule matches the text (source line or lowercased raw text)
with a captured numeric group that, after comma-stripping and
float-parsing, equals the amount; and for raw text "Total: 1200" with
amount 1199, `classifyAmounts` does not assign `total_bill` — the amount
falls to `other`. -/
theorem claim_C1 :
    (∀ (amount : ℚ) (rawText : List Char) (cat : List Char), cat ≠ "other".data →
      (classifyAmount amount (toLowerL rawText) (splitNl rawText)).type = cat →
      ∃ rule ∈ classifierTable, rule.type = cat ∧
        ∃ p ∈ rule.patterns,
          patCapturesAmount amount (findSourceLine amount (splitNl rawText))
            (toLowerL rawText) p)
    ∧ (classifyAmounts "Total: 1200".data [1199]).amounts =
        [⟨"other".data, 1199, noContextSource, 1 / 2⟩] := by
  constructor
  · intro amount rawText cat hcat htype
    unfold classifyAmount at htype
    cases hs : (scanRules amount (findSourceLine amount (splitNl rawText))
        (toLowerL rawText) classifierTable (none, 0)).1 with
    | none =>
        simp only [hs] at htype
        exact absurd htype.symm hcat
    | some b =>
        simp only [hs] at htype
        rcases scanRules_some hs with h1 | h2
        · exact absurd h1 (by simp)
        · obtain ⟨rule, hmem, hb_type, _, _, p, hp, m, hm, hcap⟩ := h2
          exact ⟨rule, hmem, hb_type.symm.trans htype, p, hp, m, hm, capOk_iff.mp hcap⟩
  · with_unfolding_all decide

/-- Witness for C1 at amount 1200 and raw text "Total: 1200" (the
classifier assigns `total_bill`, so a capturing match must exist). -/
theorem claim_C1_witness :
    ∃ rule ∈ classifierTable, rule.type = "total_bill".data ∧
      ∃ p ∈ rule.patterns,
        patCapturesAmount 1200 (findSourceLine 1200 (splitNl "Total: 1200".data))
          (toLowerL "Total: 1200".data) p :=
  claim_C1.1 1200 "Total: 1200".data "total_bill".data
    (by with_unfolding_all decide) (by with_unfolding_all decide)

/-- C2 counterexample: `normalize(["2OO"])` yields amounts `[2]`, not
`[200]`: no `O` in "2OO" is between digits or at a string boundary next
to a digit, so both are stripped rather than repaired. -/
theorem claim_C2_counterexample :
    (normalizeAmounts ["2OO".data]).normalized_amounts = [2]
    ∧ ([2] : List ℚ) ≠ [200] := by
  with_unfolding_all decide

/-- C2 (amended): `normalizeToken` applies the fixed substitution table
l→1, I→1, O→0, o→0, S→5, s→5, B→8, Z→2, T→7, G→6, each substitution
applying only when the character is digit-adjacent (between digits, or at
a string boundary next to a digit); consequently normalize(["l200"])
yields [1200] and normalize(["I00"]) yields [100], but normalize(["2OO"])
yields [2] — no character of "2OO" satisfies the digit-adjacency guard. -/
theorem claim_C2_amended :
    (∀ (w d : Char) (s : List Char), w.isDigit = false →
        fixRun w d s = specRepair w d none s)
    ∧ charReplacements =
        [('l', '1'), ('I', '1'), ('O', '0'), ('o', '0'), ('S', '5'),
         ('s', '5'), ('B', '8'), ('Z', '2'), ('T', '7'), ('G', '6')]
    ∧ (normalizeAmounts ["l200".data]).normalized_amounts = [1200]
    ∧ (normalizeAmounts ["I00".data]).normalized_amounts = [100]
    ∧ (normalizeAmounts ["2OO".data]).normalized_amounts = [2] := by
  refine ⟨fun w d s hw => fixRun_eq_spec hw s, rfl, ?_, ?_, ?_⟩ <;>
    with_unfolding_all decide

/-- Witness for C2's guard characterisation at the substitution O→0 on
the string "2OO". -/
theorem claim_C2_amended_witness :
    fixRun 'O' '0' "2OO".data = specRepair 'O' '0' none "2OO".data :=
  claim_C2_amended.1 'O' '0' "2OO".data (by decide)

/-- C3: `validateNormalizedAmounts` reports the batch invalid (the
pipeline's `invalid_amounts` status) exactly when the list is empty, or
some amount exceeds 10,000,000, or more than half of the amounts are
exactly zero; otherwise it reports the batch valid. -/
theorem claim_C3 (amounts : List ℚ) :
    (validateNormalizedAmounts amounts).valid = false ↔
      amounts = [] ∨ (∃ a ∈ amounts, 10000000 < a) ∨
        amounts.length < 2 * (amounts.filter (fun a => decide (a = 0))).length := by
  have hconv : ∀ n k : ℕ, ((n : ℚ) / 2 < (k : ℚ)) ↔ n < 2 * k := by
    intro n k
    rw [div_lt_iff₀ (by norm_num : (0 : ℚ) < 2)]
    constructor
    · intro h
      have h2 : (n : ℚ) < ((2 * k : ℕ) : ℚ) := by push_cast; linarith
      exact_mod_cast h2
    · intro h
      have h2 : (n : ℚ) < ((2 * k : ℕ) : ℚ) := by exact_mod_cast h
      push_cast at h2
      linarith
  unfold validateNormalizedAmounts
  by_cases h1 : amounts.length = 0
  · obtain rfl := List.length_eq_zero.mp h1
    simp
  · rw [if_neg h1]
    simp only []
    by_cases h2 : amounts.any (fun amt => decide ((10000000 : ℚ) < amt)) = true
    · rw [if_pos h2]
      simp only [List.any_eq_true, decide_eq_true_eq] at h2
      exact ⟨fun _ => Or.inr (Or.inl h2), fun _ => rfl⟩
    · rw [if_neg h2]
      by_cases h3 : ((amounts.length : ℚ) / 2 <
          ((amounts.filter (fun amt => decide (amt = 0))).length : ℚ))
      · rw [if_pos h3]
        exact ⟨fun _ => Or.inr (Or.inr ((hconv _ _).mp h3)), fun _ => rfl⟩
      · rw [if_neg h3]
        constructor
        · intro hfalse
          exact absurd hfalse (by decide)
        · intro hrhs
          exfalso
          rcases hrhs with he | hex | hlt
          · exact h1 (by simp [he])
          · obtain ⟨a, ha, hgt⟩ := hex
            exact h2 (List.any_eq_true.mpr ⟨a, ha, by simpa using hgt⟩)
          · exact h3 ((hconv _ _).mpr hlt)

/-- C4: whenever the pipeline returns a result with status ok, every
element of its amounts list has a type in the allow-list
{total_bill, paid, due}. -/
theorem claim_C4 (rawText : List Char) (conf minConf : ℚ) (currency : List Char)
    (amounts : List FinalAmount)
    (h : extractAndProcess rawText conf minConf = .ok currency amounts) :
    ∀ a ∈ amounts, a.type ∈ allowedTypes := by
  intro a ha
  simp only [extractAndProcess, pipelineCoreWith] at h
  split at h
  · exact absurd h (by simp)
  · split at h
    · exact absurd h (by simp)
    · split at h
      · exact absurd h (by simp)
      · rw [PipelineResult.ok.injEq] at h
        obtain ⟨_, hamts⟩ := h
        subst hamts
        obtain ⟨b, hb, rfl⟩ := List.mem_map.mp ha
        exact of_decide_eq_true (List.mem_filter.mp hb).2

/-- Witness for C4: the pipeline on "Total: 1200" returns ok with one
total_bill amount, whose type is allow-listed. -/
theorem claim_C4_witness :
    (⟨"total_bill".data, 1200, mkSourceText "Total: 1200".data⟩ : FinalAmount).type
      ∈ allowedTypes :=
  claim_C4 "Total: 1200".data 1 (1 / 2) "INR".data
    [⟨"total_bill".data, 1200, mkSourceText "Total: 1200".data⟩]
    (by with_unfolding_all decide) _ (by with_unfolding_all decide)

/-- C5 counterexample: the confidence denominator is NOT "tokens attempted
after the percentage-skip filter": on ["1200", "10%"] the source yields
confidence 0.5 (1 success / 2 raw tokens) whereas the spec's formula
(1 success / 1 attempted-after-skip token) yields 1. -/
theorem claim_C5_counterexample :
    (normalizeAmounts ["1200".data, "10%".data]).normalization_confidence = 1 / 2
    ∧ round2 (specConfidenceAfterSkip ["1200".data, "10%".data]) = 1
    ∧ (1 / 2 : ℚ) ≠ 1 := by
  with_unfolding_all decide

/-- C5 (amended): the normalization confidence equals the ratio of
successfully normalized tokens to ALL raw tokens (percentage tokens are
skipped before normalization but still counted in the denominator), lies
in [0,1] and is rounded to 2 decimals; normalize(["1200","abc"]) yields
exactly [1200] with confidence 0.5. -/
theorem claim_C5_amended :
    (∀ tokens : List (List Char),
      (normalizeAmounts tokens).normalization_confidence =
        round2 (if tokens.length = 0 then 0
                else (countNormSucc tokens : ℚ) / (tokens.length : ℚ))
      ∧ 0 ≤ (normalizeAmounts tokens).normalization_confidence
      ∧ (normalizeAmounts tokens).normalization_confidence ≤ 1)
    ∧ normalizeAmounts ["1200".data, "abc".data] = ⟨[1200], 1 / 2⟩ := by
  constructor
  · intro tokens
    rw [normalizeAmounts_eq]
    refine ⟨rfl, ?_, ?_⟩
    · show 0 ≤ round2 _
      apply round2_nonneg
      split_ifs with h
      · exact le_refl 0
      · exact div_nonneg (Nat.cast_nonneg _) (Nat.cast_nonneg _)
    · show round2 _ ≤ 1
      apply round2_le_one
      split_ifs with h
      · norm_num
      · rw [div_le_one (by exact_mod_cast Nat.pos_of_ne_zero h)]
        exact_mod_cast countNormSucc_le tokens
  · with_unfolding_all decide

/-- C6: the consistency validator is advisory and non-blocking: when a
classified set has a total_bill, a paid and a due amount with
|total − (paid + due)| > 1 it produces a warning (likewise when
due > total or paid > total), and the pipeline's returned result is
exactly what it would be under any other validator (the validator's
output is only logged). -/
theorem claim_C6 :
    (∀ (s : List ClassifiedAmount) (t p d : ClassifiedAmount),
        s.find? (fun a => a.type == "total_bill".data) = some t →
        s.find? (fun a => a.type == "paid".data) = some p →
        s.find? (fun a => a.type == "due".data) = some d →
        1 < |t.value - (p.value + d.value)| →
        (validateClassification s).warnings ≠ [])
    ∧ (∀ (s : List ClassifiedAmount) (t d : ClassifiedAmount),
        s.find? (fun a => a.type == "total_bill".data) = some t →
        s.find? (fun a => a.type == "due".data) = some d →
        t.value < d.value →
        (validateClassification s).warnings ≠ [])
    ∧ (∀ (s : List ClassifiedAmount) (t p : ClassifiedAmount),
        s.find? (fun a => a.type == "total_bill".data) = some t →
        s.find? (fun a => a.type == "paid".data) = some p →
        t.value < p.value →
        (validateClassification s).warnings ≠ [])
    ∧ ∀ (validator : List ClassifiedAmount → ClassificationCheck)
        (rawText : List Char) (conf minConf : ℚ),
        pipelineCoreWith validator rawText conf minConf =
          extractAndProcess rawText conf minConf := by
  refine ⟨?_, ?_, ?_, ?_⟩
  · intro s t p d ht hp hd hgt
    unfold validateClassification
    simp only [ht, hp, hd]
    rw [if_pos hgt]
    simp
  · intro s t d ht hd hgt
    unfold validateClassification
    simp only [ht, hd]
    rw [if_pos hgt]
    cases s.find? (fun a => a.type == "paid".data) <;> simp
  · intro s t p ht hp hgt
    unfold validateClassification
    simp only [ht, hp]
    rw [if_pos hgt]
    cases s.find? (fun a => a.type == "due".data) <;> simp
  · intro validator rawText conf minConf
    rfl

/-- Witness for C6 at the classified set {total_bill:1200, paid:1000,
due:300} (sum mismatch 100 > 1) and an arbitrary replacement validator on
the pipeline input "Total: 1200". -/
theorem claim_C6_witness :
    (validateClassification
      [⟨"total_bill".data, 1200, [], 9 / 10⟩,
       ⟨"paid".data, 1000, [], 9 / 10⟩,
       ⟨"due".data, 300, [], 9 / 10⟩]).warnings ≠ []
    ∧ pipelineCoreWith (fun _ => ⟨true, []⟩) "Total: 1200".data 1 (1 / 2) =
        extractAndProcess "Total: 1200".data 1 (1 / 2) :=
  ⟨claim_C6.1
      [⟨"total_bill".data, 1200, [], 9 / 10⟩,
       ⟨"paid".data, 1000, [], 9 / 10⟩,
       ⟨"due".data, 300, [], 9 / 10⟩]
      ⟨"total_bill".data, 1200, [], 9 / 10⟩
      ⟨"paid".data, 1000, [], 9 / 10⟩
      ⟨"due".data, 300, [], 9 / 10⟩
      (by with_unfolding_all decide) (by with_unfolding_all decide)
      (by with_unfolding_all decide) (by with_unfolding_all decide),
   claim_C6.2.2.2 _ _ _ _⟩

/-- C7: `detectCurrency` checks the currency markers in the fixed priority
order INR, USD, EUR, GBP and returns the first whose pattern matches,
defaulting to INR when none matches; in particular the extractor on
"Total: 1200" (no marker) yields currency "INR". -/
theorem claim_C7 :
    (∀ text, testRE true inrRe text = true → detectCurrency text = "INR".data)
    ∧ (∀ text, testRE true inrRe text = false → testRE true usdRe text = true →
        detectCurrency text = "USD".data)
    ∧ (∀ text, testRE true inrRe text = false → testRE true usdRe text = false →
        testRE true eurRe text = true → detectCurrency text = "EUR".data)
    ∧ (∀ text, testRE true inrRe text = false → testRE true usdRe text = false →
        testRE true eurRe text = false → testRE true gbpRe text = true →
        detectCurrency text = "GBP".data)
    ∧ (∀ text, testRE true inrRe text = false → testRE true usdRe text = false →
        testRE true eurRe text = false → testRE true gbpRe text = false →
        detectCurrency text = "INR".data)
    ∧ detectCurrency "Total: 1200".data = "INR".data := by
  refine ⟨?_, ?_, ?_, ?_, ?_, by with_unfolding_all decide⟩ <;>
    intro text <;> intros <;> simp_all [detectCurrency]

/-- Witness for C7's default branch: no currency pattern matches
"Total: 1200", so the result is the INR default. -/
theorem claim_C7_witness : detectCurrency "Total: 1200".data = "INR".data :=
  claim_C7.2.2.2.2.1 "Total: 1200".data (by with_unfolding_all decide)
    (by with_unfolding_all decide) (by with_unfolding_all decide)
    (by with_unfolding_all decide)

/-- C8: the fallback pass of `extractNumericTokens` runs only when the
context passes produced fewer than 3 tokens; every token the fallback adds
comes from a match of the 2–6-digit bare-number pattern and parses to a
value in [10, 999999] with a cleaned string of at most 8 characters. -/
theorem claim_C8 (text : List Char) :
    (3 ≤ (contextTokens text).length →
      extractNumericTokens text = contextTokens text)
    ∧ ((contextTokens text).length < 3 →
        ∃ extra, extractNumericTokens text = contextTokens text ++ extra ∧
          ∀ tok ∈ extra,
            (∃ m ∈ allMatches false fallbackNumRe text, tok = trimL (m.cap.getD [])) ∧
            ∃ q, parseFloatQ tok = some q ∧ 10 ≤ q ∧ q ≤ 999999 ∧ tok.length ≤ 8) := by
  constructor
  · intro h3
    unfold extractNumericTokens
    rw [if_neg (by omega)]
  · intro hlt
    unfold extractNumericTokens
    rw [if_pos hlt]
    exact fbPush_decomp _ _

/-- Witness for C8: on "Total: 100 Paid: 60 Due: 40" the context passes
find 3 tokens so the fallback does not run; on "Total: 1200" they find
fewer than 3 and the fallback decomposition holds. -/
theorem claim_C8_witness :
    extractNumericTokens "Total: 100 Paid: 60 Due: 40".data =
      contextTokens "Total: 100 Paid: 60 Due: 40".data
    ∧ ∃ extra, extractNumericTokens "Total: 1200".data =
        contextTokens "Total: 1200".data ++ extra ∧
        ∀ tok ∈ extra,
          (∃ m ∈ allMatches false fallbackNumRe "Total: 1200".data,
            tok = trimL (m.cap.getD [])) ∧
          ∃ q, parseFloatQ tok = some q ∧ 10 ≤ q ∧ q ≤ 999999 ∧ tok.length ≤ 8 :=
  ⟨(claim_C8 _).1 (by with_unfolding_all decide),
   (claim_C8 _).2 (by with_unfolding_all decide)⟩

/-- C9 counterexample: an amount with no exact pattern match is classified
`other` with confidence 0.5, but its source text is the raw-text line
containing the amount — not the fixed string "(context not found)" — 
whenever such a line exists. -/
theorem claim_C9_counterexample :
    (classifyAmounts "hello 42".data [42]).amounts =
      [⟨"other".data, 42, mkSourceText "hello 42".data, 1 / 2⟩]
    ∧ mkSourceText "hello 42".data ≠ noContextSource := by
  with_unfolding_all decide

/-- C9 (amended): whenever no classifier pattern yields an exact value
match, `classifyAmount` still produces a verdict: category `other` with
confidence 0.5 and value the amount itself; the source text is the first
raw-text line containing the amount's decimal string when one exists and
"(context not found)" otherwise; and `classifyAmounts` classifies every
amount (output length equals input length). -/
theorem claim_C9_amended :
    (∀ (amount : ℚ) (rawText : List Char),
      anyPatHit amount (findSourceLine amount (splitNl rawText))
        (toLowerL rawText) = false →
      classifyAmount amount (toLowerL rawText) (splitNl rawText) =
        ⟨"other".data, amount,
         if (findSourceLine amount (splitNl rawText)).isEmpty then noContextSource
         else mkSourceText (findSourceLine amount (splitNl rawText)), 1 / 2⟩)
    ∧ ∀ (rawText : List Char) (amounts : List ℚ),
        (classifyAmounts rawText amounts).amounts.length = amounts.length := by
  constructor
  · intro amount rawText hno
    unfold classifyAmount
    have hskip : scanRules amount (findSourceLine amount (splitNl rawText))
        (toLowerL rawText) classifierTable (none, 0) = (none, 0) := by
      apply scanRules_skip
      intro rule hr p hp
      cases hcase : (match matchSL p (findSourceLine amount (splitNl rawText))
          (toLowerL rawText) with
        | some m => capOk amount m
        | none => false) with
      | false => rfl
      | true =>
          exfalso
          have htrue : anyPatHit amount (findSourceLine amount (splitNl rawText))
              (toLowerL rawText) = true := by
            unfold anyPatHit
            rw [List.any_eq_true]
            refine ⟨rule, hr, ?_⟩
            rw [List.any_eq_true]
            exact ⟨p, hp, hcase⟩
          rw [hno] at htrue
          exact Bool.false_ne_true htrue
    simp only [hskip]
  · intro rawText amounts
    simp [classifyAmounts]

/-- Witness for C9 at amount 7 and raw text "hello": no pattern hits and
no line contains "7", so the fallback verdict with the placeholder source
is produced. -/
theorem claim_C9_amended_witness :
    classifyAmount 7 (toLowerL "hello".data) (splitNl "hello".data) =
      ⟨"other".data, 7, noContextSource, 1 / 2⟩ := by
  have h := claim_C9_amended.1 7 "hello".data (by with_unfolding_all decide)
  rw [h]
  with_unfolding_all decide

/-- C10 (implicit): every token returned by `extractNumericTokens` parses
to a value between 0.01 and 999,999 inclusive — the magnitude cap applies
to all extraction passes, so 1,000,000 or more is never extracted even
though the normalizer's separate sanity ceiling is 10,000,000. -/
theorem claim_C10 (text tok : List Char) (h : tok ∈ extractNumericTokens text) :
    ∃ q, parseFloatQ tok = some q ∧ 1 / 100 ≤ q ∧ q ≤ 999999 := by
  unfold extractNumericTokens at h
  by_cases hlt : (contextTokens text).length < 3
  · rw [if_pos hlt] at h
    obtain ⟨extra, he, hprop⟩ :=
      fbPush_decomp (allMatches false fallbackNumRe text) (contextTokens text)
    rw [he] at h
    rcases List.mem_append.mp h with h1 | h2
    · exact contextTokens_mem h1
    · obtain ⟨_, q, hq, h10, h99, _⟩ := hprop tok h2
      exact ⟨q, hq, le_trans (by norm_num) h10, h99⟩
  · rw [if_neg hlt] at h
    exact contextTokens_mem h

/-- Witness for C10: the token "1200" extracted from "Total: 1200" parses
into the permitted range. -/
theorem claim_C10_witness :
    ∃ q, parseFloatQ "1200".data = some q ∧ 1 / 100 ≤ q ∧ q ≤ 999999 :=
  claim_C10 "Total: 1200".data "1200".data (by with_unfolding_all decide)

end MedOCR
